import Mathlib

/-!
Verification of the tag search index in `src/app/item_search.py`.

The module keeps three module-level globals:
  * `database : Trie` — a marisa trie over the distinct case-folded tag
    words (supports `iterkeys(prefix)`, enumerating keys with that prefix);
  * `word_to_ids : defaultdict(set)` mapping each word to the set of
    `(item.id, subtype_index)` pairs whose tags contain it;
  * `_type_cback : Optional[Callable]` — the `on_type` closure, registered
    by `init`.
`on_type` reads the search entry's text, splits it on whitespace, and for
each token unions `word_to_ids[name]` over every trie key `name` having the
token as a prefix, then hands the result (or `None` for an empty token
list) to the refresh callback.  `rebuild_database` clears `word_to_ids`,
repopulates it from the catalog (`UI.item_list`), builds a fresh trie from
its keys and finally calls `_type_cback()`.

The embedding below models strings with Lean `String`, the trie by its
list of keys, the Python dict by an insertion-ordered association list
(`WordMap`), and `defaultdict.__getitem__` by `dd_get`, which returns the
stored set when the key is present and otherwise inserts and returns the
empty set — the mutation matters for the frame claims.  Python
`str.split()` drops empty fields; `str.casefold` is modelled by ASCII
lowercasing (all inputs in the claims are ASCII, where the two agree).
-/

/-- An entry identifier: the `(item.id, subtype_ind)` pair recorded by
`rebuild_database`. -/
abbrev EntryId := String × Nat

/-- One catalog item as `rebuild_database` consumes it: `item.id`, and for
each visual subtype index the list of tag strings `item.get_tags` returns
for it (the Python loop over `item.visual_subtypes` paired with
`get_tags(subtype_ind)` is flattened into a list of pairs). -/
structure Item where
  id : String
  variants : List (Nat × List String)
deriving DecidableEq, Repr

/-- Splitting a character list at separator characters, keeping empty
fields (structural recursion so the kernel can evaluate it; `cur` is the
reversed current field). -/
def splitChars (sep : Char → Bool) : List Char → List Char → List (List Char)
  | [], cur => [cur.reverse]
  | c :: rest, cur =>
    if sep c then cur.reverse :: splitChars sep rest []
    else splitChars sep rest (c :: cur)

/-- Python `str.split()` with no separator: split on whitespace runs,
dropping empty fields. -/
def pySplit (s : String) : List String :=
  ((splitChars Char.isWhitespace s.data []).filter (fun w => w ≠ [])).map
    String.mk

/-- ASCII lowercasing of one character. -/
def toLowerChar (c : Char) : Char :=
  if 'A' ≤ c ∧ c ≤ 'Z' then Char.ofNat (c.toNat + 32) else c

/-- Python `str.casefold`, restricted to ASCII where it coincides with
lowercasing. -/
def casefold (s : String) : String := String.mk (s.data.map toLowerChar)

/-- Boolean string-prefix test, by structural recursion over the
characters. -/
def isPrefixB : List Char → List Char → Bool
  | [], _ => true
  | _ :: _, [] => false
  | a :: as, b :: bs => a = b && isPrefixB as bs

/-- The `word_to_ids` dictionary: an insertion-ordered association list
from case-folded words to entry-identifier sets. -/
abbrev WordMap := List (String × Finset EntryId)

/-- First binding of a key, as Python dict lookup. -/
def lookupP : WordMap → String → Option (Finset EntryId)
  | [], _ => none
  | p :: rest, k => if p.1 = k then some p.2 else lookupP rest k

/-- The value stored for a key, or the empty set when absent. -/
def lookupD (m : WordMap) (k : String) : Finset EntryId :=
  (lookupP m k).getD ∅

/-- `word_to_ids[k]` on a `defaultdict(set)`: returns the stored set, or
inserts (at the end, as Python dicts append new keys) and returns the
empty set. -/
def dd_get (m : WordMap) (k : String) : Finset EntryId × WordMap :=
  match lookupP m k with
  | some v => (v, m)
  | none => ((∅ : Finset EntryId), m ++ [(k, ∅)])

/-- `word_to_ids[k].add(v)` on a `defaultdict(set)`: adds `v` to the set
stored under `k`, creating the binding `k ↦ {v}` when absent. -/
def dd_add (m : WordMap) (k : String) (v : EntryId) : WordMap :=
  match lookupP m k with
  | some _ => m.map (fun p => if p.1 = k then (p.1, insert v p.2) else p)
  | none => m ++ [(k, {v})]

/-- `database.iterkeys(w)`: every trie key having `w` as a prefix (marisa
tries enumerate exactly the stored keys that start with the prefix). -/
def iterkeys (db : List String) (w : String) : List String :=
  db.filter (fun name => isPrefixB w.data name.data)

/-- One step of the union loop body `found |= word_to_ids[name]`: the
accumulator is the pair (found, word_to_ids), and the defaultdict lookup
may mutate the map. -/
def innerStep (acc : Finset EntryId × WordMap) (name : String) :
    Finset EntryId × WordMap :=
  let r := dd_get acc.2 name
  (acc.1 ∪ r.1, r.2)

/-- The body of the outer loop `for word in words`: run the inner loop
over every trie key having `w` as a prefix. -/
def outerStep (db : List String) (acc : Finset EntryId × WordMap)
    (w : String) : Finset EntryId × WordMap :=
  (iterkeys db w).foldl innerStep acc

/-- The query-evaluation core of `on_type`: split the text, return `none`
(the call `refresh_cback(None)`) when no tokens remain, otherwise run
`for word in words: for name in database.iterkeys(word): found |=
word_to_ids[name]` and return `some found` together with the possibly
mutated `word_to_ids`. -/
def evalQuery (db : List String) (m : WordMap) (text : String) :
    Option (Finset EntryId) × WordMap :=
  let words := pySplit text
  if words.isEmpty then (none, m)
  else
    let r := words.foldl (outerStep db) ((∅ : Finset EntryId), m)
    (some r.1, r.2)

/-- The module state: the trie (its key list), `word_to_ids`, the current
contents of `search_var`, whether `init` has registered `_type_cback`, and
the log of values passed to `refresh_cback`. -/
structure App where
  database : List String
  word_to_ids : WordMap
  search_text : String
  inited : Bool
  calls : List (Option (Finset EntryId))
deriving DecidableEq

/-- The module's state at import time: empty trie, empty dict, no callback
registered. -/
def app0 : App :=
  { database := [], word_to_ids := [], search_text := "", inited := false,
    calls := [] }

/-- A run of the `on_type` closure: evaluate the current search text
against the current index and pass the result to `refresh_cback`
(appended to the call log). -/
def on_type (a : App) : App :=
  let r := evalQuery a.database a.word_to_ids a.search_text
  { a with word_to_ids := r.2, calls := a.calls ++ [r.1] }

/-- `init`: creates a fresh (empty) `search_var`, wires `on_type` to its
write trace and stores it in `_type_cback`. -/
def init (a : App) : App :=
  { a with inited := true, search_text := "" }

/-- Typing in the search bar: the variable's write trace fires `on_type`
with the new text. -/
def set_text (a : App) (s : String) : App :=
  on_type { a with search_text := s }

/-- The accumulation loop of `rebuild_database`, started from the cleared
dictionary: for every item, subtype and tag,
`word_to_ids[word.casefold()].add((item.id, subtype_ind))` for each
whitespace word of the tag. -/
def buildMap (catalog : List Item) : WordMap :=
  catalog.foldl (fun m item =>
    item.variants.foldl (fun m v =>
      v.2.foldl (fun m tag =>
        (pySplit tag).foldl (fun m word =>
          dd_add m (casefold word) (item.id, v.1)) m) m) m) []

/-- `rebuild_database()`: clears and repopulates `word_to_ids`, replaces
`database` with a trie over its keys, then calls `_type_cback()`.  When
`init` never ran that slot is `None` and the call raises `TypeError`; the
returned flag is `true` exactly when the rebuild ran to completion without
raising.  The index swap precedes the callback call, so it happens either
way. -/
def rebuild_database (catalog : List Item) (a : App) : Bool × App :=
  let m := buildMap catalog
  let a1 := { a with word_to_ids := m, database := m.map Prod.fst }
  if a.inited then (true, on_type a1) else (false, a1)

/-- `rebuild_database()` when iterating the catalog raises after yielding
the items `good`: `word_to_ids` has already been cleared and repopulated
from the iterated items, the exception propagates (flag `false`), and
neither the trie swap nor the `_type_cback()` call is reached. -/
def rebuild_database_f (good : List Item) (a : App) : Bool × App :=
  (false, { a with word_to_ids := buildMap good })

/-! ### Lookup lemmas -/

/-- A key misses exactly when it is not among the stored keys. -/
theorem lookupP_eq_none_iff (m : WordMap) (k : String) :
    lookupP m k = none ↔ k ∉ m.map Prod.fst := by
  induction m with
  | nil => simp [lookupP]
  | cons p rest ih =>
    simp only [List.map_cons, List.mem_cons]
    by_cases h : p.1 = k
    · simp [lookupP, h]
    · simp only [lookupP, if_neg h, ih]
      constructor
      · intro hnk
        rintro (h1 | h2)
        · exact h h1.symm
        · exact hnk h2
      · intro hall h2
        exact hall (Or.inr h2)

/-- A successful lookup returns a binding stored in the list. -/
theorem lookupP_mem {m : WordMap} {k : String} {v : Finset EntryId}
    (h : lookupP m k = some v) : (k, v) ∈ m := by
  induction m with
  | nil => simp [lookupP] at h
  | cons p rest ih =>
    by_cases hk : p.1 = k
    · simp [lookupP, hk] at h
      subst hk h
      exact List.mem_cons_self _ _
    · simp [lookupP, hk] at h
      exact List.mem_cons_of_mem _ (ih h)

/-- Looking up in an appended map consults the left part first. -/
theorem lookupP_append (m1 m2 : WordMap) (k : String) :
    lookupP (m1 ++ m2) k =
      match lookupP m1 k with
      | some v => some v
      | none => lookupP m2 k := by
  induction m1 with
  | nil => simp [lookupP]
  | cons p rest ih =>
    by_cases h : p.1 = k <;> simp [lookupP, h, ih]

/-- The value seen by `dd_get` is the defaulted lookup. -/
theorem dd_get_fst (m : WordMap) (k : String) :
    (dd_get m k).1 = lookupD m k := by
  unfold dd_get lookupD
  cases h : lookupP m k <;> simp [h]

/-- `dd_get` never changes the defaulted view of the map: it only ever
adds an empty-set binding for a key that was absent. -/
theorem lookupD_dd_get (m : WordMap) (k k' : String) :
    lookupD (dd_get m k).2 k' = lookupD m k' := by
  unfold dd_get
  cases h : lookupP m k with
  | some v => rfl
  | none =>
    unfold lookupD
    rw [lookupP_append]
    cases h' : lookupP m k' with
    | some w => simp
    | none =>
      by_cases hk : k = k' <;> simp [lookupP, hk]

/-- `dd_get` at a present key is a pure read. -/
theorem dd_get_snd_of_mem {m : WordMap} {k : String}
    (h : k ∈ m.map Prod.fst) : (dd_get m k).2 = m := by
  unfold dd_get
  cases hp : lookupP m k with
  | some v => rfl
  | none => exact absurd h ((lookupP_eq_none_iff m k).mp hp)

/-! ### The union loops of `on_type` -/

/-- The inner loop `for name in names: found |= word_to_ids[name]`: the
accumulated set is the union of the defaulted lookups, and the defaulted
view of the map is untouched. -/
theorem innerFold_spec (names : List String) :
    ∀ (acc : Finset EntryId) (m : WordMap),
      (∀ x : EntryId, x ∈ (names.foldl innerStep (acc, m)).1 ↔
        x ∈ acc ∨ ∃ n ∈ names, x ∈ lookupD m n) ∧
      (∀ k, lookupD (names.foldl innerStep (acc, m)).2 k = lookupD m k) := by
  induction names with
  | nil => intro acc m; simp
  | cons n rest ih =>
    intro acc m
    have hstep : innerStep (acc, m) n =
        (acc ∪ lookupD m n, (dd_get m n).2) := by
      simp [innerStep, dd_get_fst]
    constructor
    · intro x
      rw [List.foldl_cons, hstep]
      rw [(ih (acc ∪ lookupD m n) (dd_get m n).2).1 x]
      simp only [Finset.mem_union, lookupD_dd_get]
      constructor
      · rintro ((hx | hx) | ⟨n', hn', hx⟩)
        · exact Or.inl hx
        · exact Or.inr ⟨n, List.mem_cons_self _ _, hx⟩
        · exact Or.inr ⟨n', List.mem_cons_of_mem _ hn', hx⟩
      · rintro (hx | ⟨n', hn', hx⟩)
        · exact Or.inl (Or.inl hx)
        · rcases List.mem_cons.mp hn' with rfl | hn'
          · exact Or.inl (Or.inr hx)
          · exact Or.inr ⟨n', hn', hx⟩
    · intro k
      rw [List.foldl_cons, hstep,
        (ih (acc ∪ lookupD m n) (dd_get m n).2).2 k, lookupD_dd_get]

/-- When every name to be looked up is a stored key, the inner loop does
not mutate the map at all. -/
theorem innerFold_snd_of_keys (names : List String) :
    ∀ (acc : Finset EntryId) (m : WordMap),
      (∀ n ∈ names, n ∈ m.map Prod.fst) →
      (names.foldl innerStep (acc, m)).2 = m := by
  induction names with
  | nil => intro acc m _; rfl
  | cons n rest ih =>
    intro acc m h
    have hn : (dd_get m n).2 = m := dd_get_snd_of_mem (h n (by simp))
    have hstep : innerStep (acc, m) n = (acc ∪ (dd_get m n).1, m) := by
      simp [innerStep, hn]
    rw [List.foldl_cons, hstep]
    exact ih _ m (fun n' hn' => h n' (List.mem_cons_of_mem _ hn'))

/-- The outer loop over the query tokens: the accumulated set collects,
for every token, the defaulted lookups of every trie key having the token
as a prefix; the defaulted view of the map is untouched. -/
theorem outerFold_spec (db : List String) (words : List String) :
    ∀ (acc : Finset EntryId) (m : WordMap),
      (∀ x : EntryId, x ∈ (words.foldl (outerStep db) (acc, m)).1 ↔
        x ∈ acc ∨ ∃ w ∈ words, ∃ n ∈ iterkeys db w, x ∈ lookupD m n) ∧
      (∀ k, lookupD (words.foldl (outerStep db) (acc, m)).2 k = lookupD m k)
    := by
  induction words with
  | nil => intro acc m; simp
  | cons w rest ih =>
    intro acc m
    rcases hp : (iterkeys db w).foldl innerStep (acc, m) with ⟨A, M⟩
    have hinner := innerFold_spec (iterkeys db w) acc m
    rw [hp] at hinner
    have hstep : outerStep db (acc, m) w = (A, M) := by
      rw [outerStep, hp]
    constructor
    · intro x
      rw [List.foldl_cons, hstep, (ih A M).1 x]
      constructor
      · rintro (hA | ⟨w', hw', n', hn', hx⟩)
        · rcases (hinner.1 x).mp hA with hacc | ⟨n', hn', hx⟩
          · exact Or.inl hacc
          · exact Or.inr ⟨w, List.mem_cons_self _ _, n', hn', hx⟩
        · rw [hinner.2 n'] at hx
          exact Or.inr ⟨w', List.mem_cons_of_mem _ hw', n', hn', hx⟩
      · rintro (hacc | ⟨w', hw', n', hn', hx⟩)
        · exact Or.inl ((hinner.1 x).mpr (Or.inl hacc))
        · rcases List.mem_cons.mp hw' with rfl | hw'
          · exact Or.inl ((hinner.1 x).mpr (Or.inr ⟨n', hn', hx⟩))
          · exact Or.inr ⟨w', hw', n', hn', (hinner.2 n').symm ▸ hx⟩
    · intro k
      rw [List.foldl_cons, hstep, (ih A M).2 k, hinner.2 k]

/-- When every trie key is a stored key of the map, the outer loop does
not mutate the map at all. -/
theorem outerFold_snd_of_keys (db : List String) (words : List String) :
    ∀ (acc : Finset EntryId) (m : WordMap),
      (∀ n ∈ db, n ∈ m.map Prod.fst) →
      (words.foldl (outerStep db) (acc, m)).2 = m := by
  induction words with
  | nil => intro acc m _; rfl
  | cons w rest ih =>
    intro acc m h
    have hM : ((iterkeys db w).foldl innerStep (acc, m)).2 = m := by
      refine innerFold_snd_of_keys _ _ _ (fun n hn => h n ?_)
      exact List.mem_of_mem_filter hn
    rcases hp : (iterkeys db w).foldl innerStep (acc, m) with ⟨A, M⟩
    rw [hp] at hM
    have hstep : outerStep db (acc, m) w = (A, M) := by
      rw [outerStep, hp]
    have hM2 : M = m := hM
    rw [List.foldl_cons, hstep, hM2]
    exact ih A m h

/-! ### Query evaluation -/

/-- Membership characterisation of a non-sentinel query result: the
result exists, and holds an identifier exactly when some token is a
prefix of some trie key whose defaulted lookup contains it. -/
theorem evalQuery_spec (db : List String) (m : WordMap) (text : String)
    (h : pySplit text ≠ []) :
    ∃ F, (evalQuery db m text).1 = some F ∧
      ∀ x : EntryId, x ∈ F ↔ ∃ tok ∈ pySplit text, ∃ name ∈ db,
        isPrefixB tok.data name.data = true ∧ x ∈ lookupD m name := by
  refine ⟨((pySplit text).foldl (outerStep db)
    ((∅ : Finset EntryId), m)).1, ?_, ?_⟩
  · rw [evalQuery]
    simp only [List.isEmpty_iff, h, if_false]
  · intro x
    rw [(outerFold_spec db (pySplit text) ∅ m).1 x]
    simp only [Finset.not_mem_empty, false_or]
    constructor
    · rintro ⟨w, hw, n, hn, hx⟩
      rcases List.mem_filter.mp hn with ⟨hnd, hpre⟩
      exact ⟨w, hw, n, hnd, hpre, hx⟩
    · rintro ⟨w, hw, n, hnd, hpre, hx⟩
      exact ⟨w, hw, n, List.mem_filter.mpr ⟨hnd, hpre⟩, hx⟩

/-- An empty token list produces the sentinel. -/
theorem evalQuery_none_of_no_tokens (db : List String) (m : WordMap)
    (text : String) (h : pySplit text = []) :
    (evalQuery db m text).1 = none := by
  rw [evalQuery]
  simp [h]

/-- Every identifier in a non-sentinel result is stored in the map. -/
theorem evalQuery_mem_values (db : List String) (m : WordMap)
    (text : String) (F : Finset EntryId) (x : EntryId)
    (hF : (evalQuery db m text).1 = some F) (hx : x ∈ F) :
    ∃ p ∈ m, x ∈ p.2 := by
  by_cases h : pySplit text = []
  · rw [evalQuery_none_of_no_tokens db m text h] at hF
    exact absurd hF (by simp)
  · obtain ⟨G, hG, hmem⟩ := evalQuery_spec db m text h
    rw [hG] at hF
    obtain rfl : G = F := by injection hF
    obtain ⟨w, _, n, _, _, hxl⟩ := (hmem x).mp hx
    rw [lookupD] at hxl
    cases hp : lookupP m n with
    | none => rw [hp] at hxl; simp at hxl
    | some s =>
      rw [hp] at hxl
      exact ⟨(n, s), lookupP_mem hp, hxl⟩

/-- Evaluation against an index whose trie keys all live in the map
leaves the map untouched. -/
theorem evalQuery_snd_of_keys (db : List String) (m : WordMap)
    (text : String) (h : ∀ n ∈ db, n ∈ m.map Prod.fst) :
    (evalQuery db m text).2 = m := by
  rw [evalQuery]
  by_cases he : (pySplit text).isEmpty
  · simp [he]
  · simp only [he, if_false]
    exact outerFold_snd_of_keys db (pySplit text) ∅ m h

/-! ### Invariants of the rebuilt dictionary -/

/-- Well-formedness of `word_to_ids` as Python maintains it: keys are
distinct (a dict) and every stored set holds at least one identifier
(bindings are only ever created by `.add`). -/
def goodMap (m : WordMap) : Prop :=
  (m.map Prod.fst).Nodup ∧ ∀ p ∈ m, p.2.Nonempty

/-- A fold preserves any invariant its step preserves. -/
theorem foldl_preserve {α : Type} {β : Type} (P : β → Prop) (f : β → α → β)
    (h : ∀ b a, P b → P (f b a)) :
    ∀ (l : List α) (b : β), P b → P (l.foldl f b) := by
  intro l
  induction l with
  | nil => intro b hb; exact hb
  | cons x xs ih => intro b hb; exact ih (f b x) (h b x hb)

/-- `.add` keeps the dictionary well formed. -/
theorem goodMap_dd_add (m : WordMap) (k : String) (v : EntryId)
    (h : goodMap m) : goodMap (dd_add m k v) := by
  obtain ⟨hnd, hne⟩ := h
  rw [dd_add]
  cases hp : lookupP m k with
  | some s =>
    constructor
    · have : (m.map (fun p => if p.1 = k then (p.1, insert v p.2) else p)).map
          Prod.fst = m.map Prod.fst := by
        rw [List.map_map]
        refine List.map_congr_left (fun p _ => ?_)
        by_cases hk : p.1 = k <;> simp [hk]
      rw [this]
      exact hnd
    · intro p hpmem
      rcases List.mem_map.mp hpmem with ⟨q, hq, hfq⟩
      by_cases hk : q.1 = k
      · rw [if_pos hk] at hfq
        rw [← hfq]
        exact Finset.insert_nonempty _ _
      · rw [if_neg hk] at hfq
        rw [← hfq]
        exact hne q hq
  | none =>
    constructor
    · rw [List.map_append]
      rw [List.nodup_append]
      refine ⟨hnd, List.nodup_singleton _, ?_⟩
      intro a ha hb
      simp only [List.map_cons, List.map_nil, List.mem_singleton] at hb
      rw [hb] at ha
      exact (lookupP_eq_none_iff m k).mp hp ha
    · intro p hpmem
      rcases List.mem_append.mp hpmem with hl | hr
      · exact hne p hl
      · simp only [List.mem_singleton] at hr
        subst hr
        exact Finset.singleton_nonempty _
  
/-- The dictionary produced by the rebuild loop is well formed. -/
theorem goodMap_buildMap (catalog : List Item) : goodMap (buildMap catalog) := by
  rw [buildMap]
  refine foldl_preserve goodMap _ (fun m item hm => ?_) catalog [] ?_
  · refine foldl_preserve goodMap _ (fun m v hm => ?_) item.variants m hm
    refine foldl_preserve goodMap _ (fun m tag hm => ?_) v.2 m hm
    refine foldl_preserve goodMap _ (fun m word hm => ?_) (pySplit tag) m hm
    exact goodMap_dd_add m (casefold word) (item.id, v.1) hm
  · exact ⟨List.nodup_nil, by simp⟩

/-- In a well-formed dictionary a word is a key exactly when its defaulted
lookup is non-empty. -/
theorem goodMap_mem_keys_iff (m : WordMap) (hg : goodMap m) (w : String) :
    w ∈ m.map Prod.fst ↔ (lookupD m w).Nonempty := by
  constructor
  · intro hmem
    cases hp : lookupP m w with
    | none => exact absurd hmem ((lookupP_eq_none_iff m w).mp hp)
    | some s =>
      rw [lookupD, hp, Option.getD_some]
      exact hg.2 (w, s) (lookupP_mem hp)
  · intro hne
    cases hp : lookupP m w with
    | none =>
      rw [lookupD, hp, Option.getD_none] at hne
      exact absurd hne (by simp)
    | some s =>
      by_contra hmem
      rw [← lookupP_eq_none_iff m w] at hmem
      rw [hmem] at hp
      cases hp

/-! ### The rebuild operation -/

/-- The rebuilt state's trie keys are exactly the keys of the rebuilt
dictionary. -/
theorem rebuild_db_eq (catalog : List Item) (a : App) :
    (rebuild_database catalog a).2.database = (buildMap catalog).map Prod.fst
    := by
  rw [rebuild_database]
  cases h : a.inited <;> simp [on_type]

/-- The rebuilt state's dictionary is the one accumulated from the
catalog: the `_type_cback()` run at the end of a successful rebuild does
not disturb it, because every trie key is one of its keys. -/
theorem rebuild_map_eq (catalog : List Item) (a : App) :
    (rebuild_database catalog a).2.word_to_ids = buildMap catalog := by
  rw [rebuild_database]
  cases h : a.inited
  · simp
  · simp only [if_true, on_type]
    exact evalQuery_snd_of_keys _ _ _ (fun n hn => hn)

/-- Rebuild does not touch the search text. -/
theorem rebuild_text_eq (catalog : List Item) (a : App) :
    (rebuild_database catalog a).2.search_text = a.search_text := by
  rw [rebuild_database]
  cases h : a.inited <;> simp [on_type]

/-! ### Concrete fixtures -/

/-- An entry whose only variant carries the tag `"Red Door"` (indexed as
the case-folded words `red` and `door`). -/
def itemRedDoor : Item := { id := "A", variants := [(0, ["Red Door"])] }

/-- The module state after `init` and a successful rebuild from
`itemRedDoor`. -/
def stCase : App := (rebuild_database [itemRedDoor] (init app0)).2

/-- Catalog entry `A`, tagged `"red door"`. -/
def itemRD : Item := { id := "A", variants := [(0, ["red door"])] }

/-- Catalog entry `B`, tagged `"blue door"`. -/
def itemBD : Item := { id := "B", variants := [(0, ["blue door"])] }

/-- Catalog entry `C`, tagged `"red wall"`. -/
def itemRW : Item := { id := "C", variants := [(0, ["red wall"])] }

/-- The module state after `init` and a successful rebuild from the
three-entry catalog of the union examples. -/
def stUnion : App := (rebuild_database [itemRD, itemBD, itemRW] (init app0)).2

/-- The module state after `init` and a successful rebuild from the
one-entry catalog `[itemRD]`. -/
def stPrior : App := (rebuild_database [itemRD] (init app0)).2

/-- The state after a rebuild from `stPrior` in which catalog iteration
raised before yielding any item. -/
def stFailed : App := (rebuild_database_f [] stPrior).2

/-- An entry with two variants, only variant 1 tagged `"special"`. -/
def itemTwoVariants : Item :=
  { id := "E", variants := [(0, ["plain"]), (1, ["special"])] }

/-- The module state after `init` and a successful rebuild from
`[itemTwoVariants]`. -/
def stVariants : App := (rebuild_database [itemTwoVariants] (init app0)).2

/-- A one-word index used by witnesses. -/
def dbW : List String := ["red"]

/-- The matching one-binding dictionary used by witnesses. -/
def mW : WordMap := [("red", {("A", 0)})]

/-! ### The claims -/

/-- C1: query evaluation is NOT case-insensitive on this code.
`rebuild_database` case-folds the indexed words, but `on_type` passes the
query tokens to `database.iterkeys` without folding them, so on the index
built from the single tag `"Red Door"` the query `"red"` finds entry
`("A", 0)` while the differently-cased tokens `"Red"` and `"RED"` find
nothing — the two sides do not agree on normalization. -/
theorem c1_query_not_case_insensitive :
    (evalQuery stCase.database stCase.word_to_ids "red").1
      = some ({(("A" : String), 0)} : Finset EntryId) ∧
    (evalQuery stCase.database stCase.word_to_ids "Red").1
      = some (∅ : Finset EntryId) ∧
    (evalQuery stCase.database stCase.word_to_ids "RED").1
      = some (∅ : Finset EntryId) :=
  ⟨by decide, by decide, by decide⟩

/-- C2 (counterexample): a rebuild whose catalog iteration raises at once
does NOT leave the previous index unchanged: the word-to-identifiers
mapping differs from the one before the failed rebuild, and the query
`"red"` now answers differently than it did before. -/
theorem c2_failed_rebuild_not_all_or_nothing :
    stFailed.word_to_ids ≠ stPrior.word_to_ids ∧
    (evalQuery stFailed.database stFailed.word_to_ids "red").1
      ≠ (evalQuery stPrior.database stPrior.word_to_ids "red").1 :=
  ⟨by decide, by decide⟩

/-- C2 (amended): when catalog iteration raises after yielding the items
`good`, the error is surfaced (the rebuild does not complete), and the
prefix structure (the trie) is left unchanged; the word-to-identifiers
mapping, however, has been cleared and repopulated from the iterated
items, so a subsequent query matches prefixes against the old word list
but looks identifiers up in the partial mapping. -/
theorem c2_failed_rebuild_partial_map (good : List Item) (a : App)
    (text : String) (h : pySplit text ≠ []) :
    (rebuild_database_f good a).1 = false ∧
    (rebuild_database_f good a).2.database = a.database ∧
    (rebuild_database_f good a).2.word_to_ids = buildMap good ∧
    ∃ F, (evalQuery (rebuild_database_f good a).2.database
        (rebuild_database_f good a).2.word_to_ids text).1 = some F ∧
      ∀ x : EntryId, x ∈ F ↔ ∃ tok ∈ pySplit text, ∃ name ∈ a.database,
        isPrefixB tok.data name.data = true ∧
        x ∈ lookupD (buildMap good) name := by
  refine ⟨rfl, rfl, rfl, ?_⟩
  exact evalQuery_spec _ _ _ h

/-- C2 (witness for the amended claim): the failed rebuild from `stPrior`
surfaces its error, keeps the trie, holds the partial (here empty)
mapping, and the query `"red"` evaluates against that mixture. -/
theorem c2_failed_rebuild_partial_map_witness :
    pySplit "red" ≠ [] ∧
    ((rebuild_database_f [] stPrior).1 = false ∧
     (rebuild_database_f [] stPrior).2.database = stPrior.database ∧
     (rebuild_database_f [] stPrior).2.word_to_ids = buildMap [] ∧
     ∃ F, (evalQuery (rebuild_database_f [] stPrior).2.database
         (rebuild_database_f [] stPrior).2.word_to_ids "red").1 = some F ∧
       ∀ x : EntryId, x ∈ F ↔ ∃ tok ∈ pySplit "red",
         ∃ name ∈ stPrior.database,
         isPrefixB tok.data name.data = true ∧
         x ∈ lookupD (buildMap []) name) :=
  ⟨by decide, c2_failed_rebuild_partial_map [] stPrior "red" (by decide)⟩

/-- C3: a query whose whitespace split yields no tokens evaluates to the
no-filter sentinel (`None` handed to the callback), never to the empty
set. -/
theorem c3_no_filter_sentinel (db : List String) (m : WordMap)
    (text : String) (h : pySplit text = []) :
    (evalQuery db m text).1 = none ∧
    (evalQuery db m text).1 ≠ some (∅ : Finset EntryId) := by
  refine ⟨evalQuery_none_of_no_tokens db m text h, ?_⟩
  rw [evalQuery_none_of_no_tokens db m text h]
  simp

/-- C3 (witness): the all-whitespace query `"   "` against a one-word
index returns the sentinel. -/
theorem c3_no_filter_sentinel_witness :
    pySplit "   " = [] ∧
    ((evalQuery dbW mW "   ").1 = none ∧
     (evalQuery dbW mW "   ").1 ≠ some (∅ : Finset EntryId)) :=
  ⟨by decide, c3_no_filter_sentinel dbW mW "   " (by decide)⟩

/-- C4: union semantics. For every index and every query with at least
one token, the result is present (not the sentinel) and holds an
identifier exactly when some token is a prefix of some indexed word whose
identifier set contains it; on the catalog `A`:"red door", `B`:"blue
door", `C`:"red wall", the query `"red"` yields `{A, C}`, `"red blue"`
yields `{A, B, C}`, `"doo"` yields `{A, B}`, and `"xyz"` yields the empty
set, not the sentinel. -/
theorem c4_union_semantics :
    (∀ (db : List String) (m : WordMap) (text : String),
      pySplit text ≠ [] →
      ∃ F, (evalQuery db m text).1 = some F ∧
        ∀ x : EntryId, x ∈ F ↔ ∃ tok ∈ pySplit text, ∃ name ∈ db,
          isPrefixB tok.data name.data = true ∧ x ∈ lookupD m name) ∧
    (evalQuery stUnion.database stUnion.word_to_ids "red").1
      = some ({(("A" : String), 0), (("C" : String), 0)} : Finset EntryId) ∧
    (evalQuery stUnion.database stUnion.word_to_ids "red blue").1
      = some ({(("A" : String), 0), (("B" : String), 0),
          (("C" : String), 0)} : Finset EntryId) ∧
    (evalQuery stUnion.database stUnion.word_to_ids "doo").1
      = some ({(("A" : String), 0), (("B" : String), 0)} : Finset EntryId) ∧
    (evalQuery stUnion.database stUnion.word_to_ids "xyz").1
      = some (∅ : Finset EntryId) := by
  refine ⟨evalQuery_spec, ?_, ?_, ?_, by decide⟩
  · show some _ = some _
    exact congrArg some (Finset.Subset.antisymm (by decide) (by decide))
  · show some _ = some _
    exact congrArg some (Finset.Subset.antisymm (by decide) (by decide))
  · show some _ = some _
    exact congrArg some (Finset.Subset.antisymm (by decide) (by decide))

/-- C5: a successful rebuild (the callback is registered) completes and,
as its final step, re-invokes the visibility callback exactly once more,
with the last-known query text evaluated against the newly built index —
no new UI input is involved; and every identifier such a post-rebuild
evaluation can return is stored in the new mapping, so an entry absent
from the new catalog's mapping is never returned. -/
theorem c5_rebuild_reinvokes_callback (catalog : List Item) (a : App)
    (h : a.inited = true) :
    (rebuild_database catalog a).1 = true ∧
    (rebuild_database catalog a).2.calls = a.calls ++
      [(evalQuery ((buildMap catalog).map Prod.fst) (buildMap catalog)
        a.search_text).1] ∧
    (∀ F : Finset EntryId,
      (evalQuery ((buildMap catalog).map Prod.fst) (buildMap catalog)
        a.search_text).1 = some F →
      ∀ x ∈ F, ∃ p ∈ buildMap catalog, x ∈ p.2) := by
  refine ⟨?_, ?_, ?_⟩
  · rw [rebuild_database]
    simp [h]
  · rw [rebuild_database]
    simp [h, on_type]
  · intro F hF x hx
    exact evalQuery_mem_values _ _ _ F x hF hx

/-- C5 (witness): rebuilding the empty catalog after `init` completes and
logs one further callback invocation. -/
theorem c5_rebuild_reinvokes_callback_witness :
    (init app0).inited = true ∧
    ((rebuild_database [] (init app0)).1 = true ∧
     (rebuild_database [] (init app0)).2.calls = (init app0).calls ++
       [(evalQuery ((buildMap []).map Prod.fst) (buildMap [])
         (init app0).search_text).1] ∧
     (∀ F : Finset EntryId,
       (evalQuery ((buildMap []).map Prod.fst) (buildMap [])
         (init app0).search_text).1 = some F →
       ∀ x ∈ F, ∃ p ∈ buildMap [], x ∈ p.2)) :=
  ⟨rfl, c5_rebuild_reinvokes_callback [] (init app0) rfl⟩

/-- C6: after any rebuild the trie's word list is exactly the key list of
the word-to-identifiers mapping, and a word is in the trie exactly when
its mapping entry is non-empty: the two structures are rebuilt together
from the same accumulated dictionary. -/
theorem c6_index_consistency (catalog : List Item) (a : App) :
    (rebuild_database catalog a).2.database =
      ((rebuild_database catalog a).2.word_to_ids).map Prod.fst ∧
    ∀ w : String,
      w ∈ (rebuild_database catalog a).2.database ↔
      (lookupD (rebuild_database catalog a).2.word_to_ids w).Nonempty := by
  rw [rebuild_db_eq, rebuild_map_eq]
  exact ⟨rfl, goodMap_mem_keys_iff _ (goodMap_buildMap catalog)⟩

/-- C7: rebuilding from the same catalog is deterministic and idempotent
up to query results: whatever the two prior module states (in particular,
one being the result of the first rebuild), the rebuilt indexes answer
every query string identically. -/
theorem c7_rebuild_deterministic (catalog : List Item) (a b : App)
    (text : String) :
    (evalQuery (rebuild_database catalog a).2.database
      (rebuild_database catalog a).2.word_to_ids text).1 =
    (evalQuery (rebuild_database catalog b).2.database
      (rebuild_database catalog b).2.word_to_ids text).1 := by
  rw [rebuild_db_eq, rebuild_map_eq, rebuild_db_eq, rebuild_map_eq]

/-- C8: identifiers are per-variant pairs: on the entry `E` whose variant
0 is tagged `"plain"` and variant 1 `"special"`, the query `"special"`
returns exactly `{(E, 1)}` and the query `"plain"` exactly `{(E, 0)}`. -/
theorem c8_variant_distinctness :
    (evalQuery stVariants.database stVariants.word_to_ids "special").1
      = some ({(("E" : String), 1)} : Finset EntryId) ∧
    (evalQuery stVariants.database stVariants.word_to_ids "plain").1
      = some ({(("E" : String), 0)} : Finset EntryId) :=
  ⟨by decide, by decide⟩

/-- C9: query evaluation against an index built by rebuild is pure: the
word-to-identifiers mapping is returned unchanged (every trie key is a
stored key, so the defaultdict lookup never inserts), and re-evaluating
the same query against the resulting state yields the same result. -/
theorem c9_evaluation_pure (catalog : List Item) (a : App) (text : String) :
    (evalQuery (rebuild_database catalog a).2.database
      (rebuild_database catalog a).2.word_to_ids text).2
      = (rebuild_database catalog a).2.word_to_ids ∧
    (evalQuery (rebuild_database catalog a).2.database
      (evalQuery (rebuild_database catalog a).2.database
        (rebuild_database catalog a).2.word_to_ids text).2 text).1
      = (evalQuery (rebuild_database catalog a).2.database
          (rebuild_database catalog a).2.word_to_ids text).1 := by
  have hsnd : (evalQuery (rebuild_database catalog a).2.database
      (rebuild_database catalog a).2.word_to_ids text).2
      = (rebuild_database catalog a).2.word_to_ids := by
    rw [rebuild_db_eq, rebuild_map_eq]
    exact evalQuery_snd_of_keys _ _ _ (fun n hn => hn)
  exact ⟨hsnd, by rw [hsnd]⟩

/-- C10: rebuild ends by calling the stored text-change handler
unconditionally, so it completes without raising exactly when `init` has
registered that handler; rebuilding after `init` always completes. -/
theorem c10_rebuild_requires_init (catalog : List Item) (a : App) :
    ((rebuild_database catalog a).1 = true ↔ a.inited = true) ∧
    (rebuild_database catalog (init a)).1 = true := by
  constructor
  · rw [rebuild_database]
    cases h : a.inited <;> simp
  · rw [rebuild_database]
    simp [init]
